import Mathlib

/-!
Verification of core components of the mtp_audioplayer daemon.

Each definition is a shallow embedding of the corresponding Rust item,
with the source file and function named in its doc comment.  Machine
integers that cannot overflow on the modelled paths are embedded as
`Nat`/`Int`; fallible operations return `Option` or `Except`; panics are
modelled as `none`.  Asynchronous code is embedded as explicit state
passing: a lock-protected critical section becomes a pure state
transition function, and the resolution of a future becomes a function
of the events that may complete it.
-/

namespace Mtp

/-! ## Priority scheduler (src/priority_scheduler.rs) -/

/-- One entry of the scheduler queue (`TokenState` in
src/priority_scheduler.rs).  The `notify: Arc<Notify>` handle is
represented by the token's unique `id`; firing a waker is modelled by
returning the notified entry. -/
structure TokenState where
  id : Nat
  priority : Int
  deriving Repr, DecidableEq

/-- Comparator passed to `queue.sort_by(|s1, s2| s2.priority.cmp(&s1.priority))`:
`s1` may come before `s2` when its priority is at least as large
(descending order). -/
def tokenLe (s1 s2 : TokenState) : Bool := s2.priority ≤ s1.priority

/-- The queue mutation done by `Scheduler::get_token_with_notify`
(src/priority_scheduler.rs lines 138-140): push the new token state at
the end, then stably sort the queue by descending priority.  Rust's
`sort_by` is a stable sort; `List.mergeSort` is the stable sort of the
Lean library, and stable sorting determines the output uniquely. -/
def schedSortedInsert (q : List TokenState) (t : TokenState) : List TokenState :=
  List.mergeSort (q ++ [t]) tokenLe

/-- `Scheduler::get_token_with_notify` (src/priority_scheduler.rs lines
131-149) after the new state is pushed and the queue sorted: if the new
token landed at index 0 and the queue has at least two entries, the
entry at index 1 is removed and its waker fired.  Returns the resulting
queue together with the removed (and notified) token state, if any. -/
def getTokenWithNotify (q : List TokenState) (t : TokenState) :
    List TokenState × Option TokenState :=
  let q2 := schedSortedInsert q t
  match q2 with
  | q0 :: q1 :: rest => if q0.id = t.id then (q0 :: rest, some q1) else (q2, none)
  | _ => (q2, none)

/-- `Scheduler::is_active` (src/priority_scheduler.rs lines 107-111):
`queue[0].id == id`.  Indexing element 0 of an empty queue panics;
the panic is modelled as `none`. -/
def is_active (queue : List TokenState) (id : Nat) : Option Bool :=
  match queue with
  | [] => none
  | q0 :: _ => some (q0.id = id)

/-- `Scheduler::is_waiting` (src/priority_scheduler.rs lines 113-117):
the token is somewhere in the queue at an index greater than 0. -/
def is_waiting (queue : List TokenState) (id : Nat) : Bool :=
  match (queue.findIdx? (fun s => s.id = id)) with
  | some i => 0 < i
  | none => false

/-- `Scheduler::is_released` (src/priority_scheduler.rs lines 119-123):
the token is no longer in the queue. -/
def is_released (queue : List TokenState) (id : Nat) : Bool :=
  (queue.findIdx? (fun s => s.id = id)).isNone

end Mtp

namespace Mtp

/-- Claim C10: with an empty scheduler queue (for example after every
issued token has been released), `Scheduler::is_active` indexes element
0 of the empty queue and panics instead of returning `false`; it
returns a Boolean (is safe) exactly when at least one token is
outstanding. -/
theorem c10_is_active_panics_on_empty_queue :
    (∀ id : Nat, is_active [] id = none) ∧
    (∀ (q : List TokenState) (id : Nat), q ≠ [] → (is_active q id).isSome) := by
  constructor
  · intro id
    rfl
  · intro q id hq
    match q with
    | [] => exact absurd rfl hq
    | q0 :: rest => simp [is_active]

/-- Witness for C10 at a concrete queue: the one-element queue does not
panic, the empty queue does. -/
theorem c10_is_active_panics_on_empty_queue_witness :
    (is_active [] 7 = none) ∧ (is_active [⟨3, 5⟩] 7).isSome := by
  refine ⟨c10_is_active_panics_on_empty_queue.1 7, ?_⟩
  exact c10_is_active_panics_on_empty_queue.2 [⟨3, 5⟩] 7 (by simp)

end Mtp

namespace Mtp

/-! ## Strings

Rust `String`/`&str` values are embedded as `List Char` so that every
string operation the sources use (lowercasing, splitting, numeric
parsing, equality) is structural recursion that the kernel can
evaluate.  All strings handled by the claims are ASCII; `Char.toLower`
agrees with Rust `str::to_lowercase` on ASCII. -/

/-- A Rust string, embedded as its list of characters. -/
abbrev Str := List Char

/-- Coerce a Lean string literal to the embedding. -/
def str (s : String) : Str := s.data

/-- Rust `str::to_lowercase` restricted to ASCII strings. -/
def strLower (s : Str) : Str := s.map Char.toLower

/-! ## Alarm state names (src/alarm_filter.rs) -/

/-- `AlarmState` (src/alarm_filter.rs lines 20-30), a `repr(u32)` enum
with the discriminants given by the source. -/
inductive AlarmState where
  | Normal
  | Raised
  | RaisedCleared
  | RaisedAcknowledged
  | RaisedAcknowledgedCleared
  | RaisedClearedAcknowledged
  | Removed
  deriving Repr, DecidableEq

namespace AlarmState

/-- The `repr(u32)` discriminant of each `AlarmState` variant. -/
def toU32 : AlarmState → Nat
  | Normal => 0
  | Raised => 1
  | RaisedCleared => 2
  | RaisedAcknowledged => 5
  | RaisedAcknowledgedCleared => 6
  | RaisedClearedAcknowledged => 7
  | Removed => 8

/-- `AlarmState::try_from` derived by `TryFromPrimitive` on the
`repr(u32)` discriminants. -/
def tryFromU32 (n : Nat) : Option AlarmState :=
  match n with
  | 0 => some Normal
  | 1 => some Raised
  | 2 => some RaisedCleared
  | 5 => some RaisedAcknowledged
  | 6 => some RaisedAcknowledgedCleared
  | 7 => some RaisedClearedAcknowledged
  | 8 => some Removed
  | _ => none

/-- `AlarmState::as_str` (src/alarm_filter.rs lines 110-120). -/
def as_str : AlarmState → Str
  | Normal => str "Normal"
  | Raised => str "Raised"
  | RaisedCleared => str "RaisedCleared"
  | RaisedAcknowledged => str "RaisedAcknowledged"
  | RaisedAcknowledgedCleared => str "RaisedAcknowledgedCleared"
  | RaisedClearedAcknowledged => str "RaisedClearedAcknowledged"
  | Removed => str "Removed"

end AlarmState

/-- Rust `str::parse::<u32>()`: an optional leading `+` sign followed by
at least one ASCII digit, with the value required to fit in 32 bits. -/
def rustParseU32 (s : Str) : Option Nat :=
  let digits := match s with
    | '+' :: rest => rest
    | _ => s
  if digits ≠ [] ∧ digits.all Char.isDigit then
    let n := digits.foldl (fun a c => a * 10 + (c.toNat - 48)) 0
    if n < 2 ^ 32 then some n else none
  else none

/-- The splitter `lc.split(|c| c == ' ' || c == ',' || c == '/')` used by
`AlarmState::from_str`: like Rust's `str::split`, empty pieces between
consecutive separators are kept. -/
def splitSep : Str → List Str
  | [] => [[]]
  | c :: rest =>
    if c = ' ' ∨ c = ',' ∨ c = '/' then [] :: splitSep rest
    else match splitSep rest with
      | w :: ws => (c :: w) :: ws
      | [] => [[c]]

/-- `<AlarmState as FromStr>::from_str` (src/alarm_filter.rs lines
67-107): first try to parse the string as a `u32` discriminant; else
lowercase it, split on space, comma and slash, and match the canonical
names and the `in`/`incoming`, `out`/`outgoing`, `ack`/`acknowledged`
alias lists.  Errors are collapsed to `none` (the source carries only
an error message with the offending string). -/
def alarmStateFromStr (s : Str) : Option AlarmState :=
  match rustParseU32 s with
  | some n => AlarmState.tryFromU32 n
  | none =>
    let list := splitSep (strLower s)
    if list = [str "normal"] then some AlarmState.Normal
    else if list = [str "incoming"] ∨ list = [str "in"] ∨ list = [str "raised"] then
      some AlarmState.Raised
    else if list = [str "incoming", str "outgoing"] ∨ list = [str "in", str "out"] ∨
        list = [str "raisedcleared"] then
      some AlarmState.RaisedCleared
    else if list = [str "incoming", str "acknowledged"] ∨ list = [str "in", str "ack"] ∨
        list = [str "raisedacknowledged"] then
      some AlarmState.RaisedAcknowledged
    else if list = [str "incoming", str "acknowledged", str "outgoing"] ∨
        list = [str "in", str "ack", str "out"] ∨
        list = [str "raisedacknowledgedcleared"] then
      some AlarmState.RaisedAcknowledgedCleared
    else if list = [str "incoming", str "outgoing", str "acknowledged"] ∨
        list = [str "in", str "out", str "ack"] ∨
        list = [str "raisedclearedacknowledged"] then
      some AlarmState.RaisedClearedAcknowledged
    else if list = [str "removed"] then some AlarmState.Removed
    else none

/-- Claim C8: for every canonical alarm state, parsing the rendered
name round-trips: `AlarmState::from_str(s.as_str()) == Ok(s)`. -/
theorem c8_alarm_state_roundtrip :
    ∀ s : AlarmState, alarmStateFromStr (AlarmState.as_str s) = some s := by
  intro s
  cases s <;> decide

end Mtp

namespace Mtp

/-! ## Clip player render callback (src/clip_player.rs) -/

/-- `PlaybackState` (src/clip_player.rs lines 97-111), generic over the
sample type `S`.  The payload of `Error` does not affect the render
callback and is omitted. -/
inductive PlaybackState (S : Type) where
  | Setup
  | Ready
  | Playing (seqno : Nat) (samples : List S)
  | Cancel
  | ErrorState
  | Shutdown
  | Done
  deriving Repr, DecidableEq

/-- Result of one invocation of the render callback: the playback state
after the call, the contents of the output buffer, and the callback's
persistent `current_seqno` and `pos` variables. -/
structure RenderResult (S : Type) where
  state : PlaybackState S
  buffer : List S
  seqno : Nat
  pos : Nat
  deriving Repr, DecidableEq

/-- `generate_samples` (src/clip_player.rs lines 173-225): one render
callback.  `offset` is `S::SAMPLE_OFFSET` (the sample type's silence
value: 0 for i16, 32768 for u16, 0.0 for f32).  `buffer` holds the
output buffer's previous contents, since the callback receives an
uninitialised slice from the audio backend. -/
def generate_samples {S : Type} (offset : S) (state : PlaybackState S)
    (buffer : List S) (current_seqno pos : Nat) : RenderResult S :=
  match state with
  | .Playing seqno samples =>
    let cs := if seqno ≠ current_seqno then seqno else current_seqno
    let p0 := if seqno ≠ current_seqno then 0 else pos
    let p1 := if p0 ≥ samples.length then 0 else p0
    let filled :=
      if buffer.length ≤ samples.length - p1 then
        ((samples.drop p1).take buffer.length, p1 + buffer.length)
      else
        let copyLen := samples.length - p1
        ((samples.drop p1).take copyLen ++
          List.replicate (buffer.length - copyLen) offset, samples.length)
    if filled.2 ≥ samples.length then ⟨.Ready, filled.1, cs, 0⟩
    else ⟨.Playing seqno samples, filled.1, cs, filled.2⟩
  | .Cancel => ⟨.Ready, buffer, current_seqno, 0⟩
  | s => ⟨s, List.replicate buffer.length offset, current_seqno, pos⟩

/-- Counterexample to claim C2: in the `Cancel` state the render
callback resets `pos` and returns to `Ready` but leaves the output
buffer untouched — it does not fill it with the sample type's offset
value.  Concretely, with i16 samples (offset 0) and a buffer holding
the stale sample 5, the buffer still holds 5 after the call. -/
theorem c2_cancel_does_not_fill_silence :
    (generate_samples (S := Int) 0 .Cancel [5] 0 0).buffer = [5] ∧
    (generate_samples (S := Int) 0 .Cancel [5] 0 0).buffer ≠ [0] := by
  constructor
  · rfl
  · decide

/-- Claim C2 as amended: in every non-`Playing` state other than
`Cancel` (`Setup`, `Ready`, `ErrorState`, `Shutdown`, `Done`) one render
callback fills the entire output buffer with the sample type's offset
value and leaves the state, `current_seqno` and `pos` unchanged; in the
`Cancel` state it leaves the buffer unmodified, resets `pos` to 0 and
transitions the state to `Ready`. -/
theorem c2_generate_samples_non_playing {S : Type} (offset : S)
    (st : PlaybackState S) (buffer : List S) (current_seqno pos : Nat)
    (hp : ∀ seqno samples, st ≠ .Playing seqno samples) :
    (st ≠ .Cancel →
      generate_samples offset st buffer current_seqno pos =
        ⟨st, List.replicate buffer.length offset, current_seqno, pos⟩) ∧
    (st = .Cancel →
      generate_samples offset st buffer current_seqno pos =
        ⟨.Ready, buffer, current_seqno, 0⟩) := by
  constructor
  · intro hc
    cases st with
    | Playing seqno samples => exact absurd rfl (hp seqno samples)
    | Cancel => exact absurd rfl hc
    | _ => rfl
  · intro hc
    subst hc
    rfl

/-- Witness for the amended C2 at the `Ready` state with a two-sample
i16 buffer. -/
theorem c2_generate_samples_non_playing_witness :
    generate_samples (S := Int) 0 .Ready [7, 9] 3 1 = ⟨.Ready, [0, 0], 3, 1⟩ :=
  (c2_generate_samples_non_playing (S := Int) 0 .Ready [7, 9] 3 1
    (fun _ _ h => PlaybackState.noConfusion h)).1
    (fun h => PlaybackState.noConfusion h)

end Mtp

namespace Mtp

/-! ## Tag dispatcher (src/app_config.rs, `TagContext`) -/

/-- `TagObservable` (src/app_config.rs lines 434-437).  The
`watch::channel` pair is represented by a channel identity `chan`: the
`Arc<watch::Sender>` lives exactly as long as the `TagObservable` that
owns it, and receivers watch the channel with that identity. -/
structure TagObservable where
  state : Option Str
  chan : Nat
  deriving Repr, DecidableEq

/-- `TagContext` (src/app_config.rs lines 439-442).  The `HashMap` is
an association list with at most one entry per name; `nextChan`
allocates fresh channel identities for `watch::channel()` calls. -/
structure TagContext where
  tags : List (Str × TagObservable)
  nextChan : Nat
  deriving Repr, DecidableEq

/-- Lookup in the tag map (`tags.get(name)`). -/
def tagsLookup (tags : List (Str × TagObservable)) (name : Str) : Option TagObservable :=
  (tags.find? (fun p => p.1 = name)).map (fun p => p.2)

/-- `HashMap::insert`: the entry for `name` is replaced (the old
`TagObservable`, and with it the old watch sender, is dropped). -/
def tagsInsert (tags : List (Str × TagObservable)) (name : Str) (obs : TagObservable) :
    List (Str × TagObservable) :=
  (name, obs) :: tags.filter (fun p => ¬ p.1 = name)

/-- `TagContext::add_tag` (src/app_config.rs lines 469-478): insert a
`TagObservable` with the given initial state and a fresh
`watch::channel`. -/
def add_tag (c : TagContext) (name : Str) (state : Option Str) : TagContext :=
  { tags := tagsInsert c.tags name ⟨state, c.nextChan⟩, nextChan := c.nextChan + 1 }

/-- `TagContext::tag_changed` (src/app_config.rs lines 452-462): if the
tag is registered, store the new value and broadcast it on the tag's
channel; returns the channel notified, if any. -/
def tag_changed (c : TagContext) (name newValue : Str) : TagContext × Option Nat :=
  match tagsLookup c.tags name with
  | some obs =>
    ({ c with tags := tagsInsert c.tags name { obs with state := some newValue } },
      some obs.chan)
  | none => (c, none)

/-- `TagContext::get_value` of the `TagDispatcher` impl
(src/app_config.rs lines 535-539). -/
def get_value (c : TagContext) (tag : Str) : Option Str :=
  (tagsLookup c.tags tag).bind (fun obs => obs.state)

/-- Errors of the tag dispatcher trait (src/actions/tag_dispatcher.rs). -/
inductive TagDispatchError where
  | TagNotFound
  | DispatcherNotAvailable
  deriving Repr, DecidableEq

/-- `TagContext::wait_value` (src/app_config.rs lines 511-533): returns
the tag's current value together with the armed future, represented by
the identity of the watch channel the future's receiver clone holds.
(The lock-poisoning path to `DispatcherNotAvailable` is not modelled.) -/
def wait_value (c : TagContext) (tag : Str) :
    Except TagDispatchError (Option Str × Nat) :=
  match tagsLookup c.tags tag with
  | some obs => .ok (obs.state, obs.chan)
  | none => .error .TagNotFound

/-- A watch channel is alive while some registered tag still owns it. -/
def chanAlive (c : TagContext) (ch : Nat) : Bool :=
  c.tags.any (fun p => p.2.chan = ch)

/-- What a pending `wait_value` future does next, absent any further
`tag_changed` broadcast: it keeps waiting while its channel's sender is
alive, and resolves `Err(DispatcherNotAvailable)` once the sender is
dropped (`rx.changed()` returns `Err`, src/app_config.rs lines
525-531). -/
inductive WaitFutureState where
  | pending
  | failed
  deriving Repr, DecidableEq

/-- State of a `wait_value` future holding a receiver of channel `ch`
in context `c`. -/
def waitFutureState (c : TagContext) (ch : Nat) : WaitFutureState :=
  if chanAlive c ch then .pending else .failed

end Mtp

namespace Mtp

/-- Counterexample to claim C6 (`add_tag` idempotent): repeating
`add_tag("x", None)` replaces the tag's watch channel, so a
`wait_value` future armed after the first call — still pending if no
second call is made — fails with `DispatcherNotAvailable` once the
second call drops the old sender.  The observable state after two calls
therefore differs from the state after one. -/
theorem c6_add_tag_not_idempotent :
    wait_value (add_tag ⟨[], 0⟩ (str "x") none) (str "x") = .ok (none, 0) ∧
    waitFutureState (add_tag ⟨[], 0⟩ (str "x") none) 0 = .pending ∧
    waitFutureState (add_tag (add_tag ⟨[], 0⟩ (str "x") none) (str "x") none) 0 = .failed ∧
    add_tag (add_tag ⟨[], 0⟩ (str "x") none) (str "x") none ≠
      add_tag ⟨[], 0⟩ (str "x") none := by
  refine ⟨rfl, rfl, rfl, by decide⟩

/-- Claim C6 as amended: a second `add_tag` with the same name and
initial value leaves the tag's stored value unchanged, but it is not
idempotent for waiters: it installs a fresh watch channel, so a
`wait_value` future armed between the two calls — pending after the
first call alone — fails with `DispatcherNotAvailable` after the
repeated registration.  (`hchan` is the `TagContext` invariant that
every allocated channel identity is below the allocator counter.) -/
theorem c6_add_tag_repeat (c : TagContext) (name : Str) (init : Option Str)
    (hchan : ∀ p ∈ c.tags, p.2.chan < c.nextChan) :
    get_value (add_tag (add_tag c name init) name init) name =
      get_value (add_tag c name init) name ∧
    (∀ v ch, wait_value (add_tag c name init) name = .ok (v, ch) →
      waitFutureState (add_tag c name init) ch = .pending ∧
      waitFutureState (add_tag (add_tag c name init) name init) ch = .failed) := by
  constructor
  · simp [get_value, add_tag, tagsLookup, tagsInsert]
  · intro v ch hw
    have hch : ch = c.nextChan := by
      simp [wait_value, add_tag, tagsLookup, tagsInsert] at hw
      exact hw.2.symm
    subst hch
    constructor
    · simp [waitFutureState, chanAlive, add_tag, tagsInsert]
    · have hdead : chanAlive (add_tag (add_tag c name init) name init) c.nextChan = false := by
        apply List.any_eq_false.mpr
        intro p hp
        simp only [add_tag, tagsInsert] at hp
        rcases List.mem_cons.mp hp with h | hp1
        · subst h
          simp
        · rcases List.mem_filter.mp hp1 with ⟨hp2, hpass⟩
          rcases List.mem_cons.mp hp2 with h | hp3
          · subst h
            simp at hpass
          · have := hchan p (List.mem_of_mem_filter hp3)
            simp only [decide_eq_true_eq]
            omega
      simp [waitFutureState, hdead]

end Mtp

namespace Mtp

/-- Witness for the amended C6 on a concrete context: one registered
tag, repeat registration, value preserved, armed future fails. -/
theorem c6_add_tag_repeat_witness :
    get_value (add_tag (add_tag ⟨[], 0⟩ (str "x") none) (str "x") none) (str "x") =
      get_value (add_tag ⟨[], 0⟩ (str "x") none) (str "x") ∧
    waitFutureState (add_tag ⟨[], 0⟩ (str "x") none) 0 = .pending ∧
    waitFutureState (add_tag (add_tag ⟨[], 0⟩ (str "x") none) (str "x") none) 0 = .failed := by
  have h := c6_add_tag_repeat ⟨[], 0⟩ (str "x") none (by intro p hp; cases hp)
  exact ⟨h.1, (h.2 none 0 rfl).1, (h.2 none 0 rfl).2⟩

/-! ## SetTag write confirmation (src/app_config.rs, `async_set_tag`) -/

/-- The event that settles the future returned by
`TagContext::async_set_tag` (src/app_config.rs line 493,
`timeout(Duration::from_millis(500), done_recv).await??`): either the
oneshot receiver yields a value before the 500 ms deadline — the
ingress loop sends `Ok(())` when the matching `NotifyWriteTag`
acknowledgment arrives (src/bin/mtp_audioplayer/main.rs line 263) — or
the sender is dropped unanswered, or the 500 ms timeout elapses
first. -/
inductive SetTagResolution where
  | ack (r : Except Str Unit)
  | senderDropped
  | timeoutElapsed

/-- Resolution of `timeout(Duration::from_millis(500), done_recv).await??`:
the first `?` propagates the `Elapsed` timeout error, the second `?`
propagates the oneshot `RecvError`, and only a value actually received
within the deadline is returned as is. -/
def setTagFutureOutcome : SetTagResolution → Except Str Unit
  | .ack r => r
  | .senderDropped => .error (str "channel closed")
  | .timeoutElapsed => .error (str "deadline has elapsed")

/-- `TagContext::async_set_tag` (src/app_config.rs lines 482-494):
first apply `tag_changed` locally, then queue a `TagSetRequest`; if the
queue is closed the future is immediately `Err("Failed to queue
request")`, otherwise it resolves according to `setTagFutureOutcome`.
Returns the updated context and the future as a function of the
settling event. -/
def async_set_tag (c : TagContext) (name value : Str) (queueOpen : Bool) :
    TagContext × (SetTagResolution → Except Str Unit) :=
  let c1 := (tag_changed c name value).1
  if queueOpen then (c1, setTagFutureOutcome)
  else (c1, fun _ => .error (str "Failed to queue request"))

/-- Counterexample to claim C1: when the 500 ms acknowledgment timeout
elapses without an acknowledgment, the future returned by
`async_set_tag` resolves with the propagated `Elapsed` error, not
`Ok(())`.  Shown at the concrete call `async_set_tag(_, "t", "1")` with
the send queue open. -/
theorem c1_timeout_is_error :
    (async_set_tag ⟨[], 0⟩ (str "t") (str "1") true).2 .timeoutElapsed =
      .error (str "deadline has elapsed") ∧
    (async_set_tag ⟨[], 0⟩ (str "t") (str "1") true).2 .timeoutElapsed ≠ .ok () := by
  constructor
  · rfl
  · intro h
    cases h

/-- Claim C1 as amended: for every tag name and value (with the egress
queue open), the future returned by `async_set_tag` resolves `Ok(())`
when the external write acknowledgment — which the ingress loop
delivers as `Ok(())` — arrives within 500 ms; when the 500 ms timeout
elapses without an acknowledgment it resolves with an error (the
`Elapsed` error propagated by `?`), not `Ok(())`: the timeout is not
treated as best-effort success. -/
theorem c1_async_set_tag_resolution (c : TagContext) (name value : Str) :
    (async_set_tag c name value true).2 (.ack (.ok ())) = .ok () ∧
    (async_set_tag c name value true).2 .timeoutElapsed =
      .error (str "deadline has elapsed") := by
  exact ⟨rfl, rfl⟩

end Mtp

namespace Mtp

/-! ## WaitTag conditions (src/actions/wait_tag.rs)

Rust `f64` values are modelled by `ℚ`.  The standard library float
parser `str::parse::<f64>` is external to this repository, so it is a
parameter `parseF64` of the embedding; `parse_number` and
`TagCondition::check` are translated from the source on top of it. -/

/-- `TagCondition` (src/actions/wait_tag.rs lines 7-17). -/
inductive TagCondition where
  | Less (cmp : ℚ)
  | LessEqual (cmp : ℚ)
  | Greater (cmp : ℚ)
  | GreaterEqual (cmp : ℚ)
  | EqualNumber (cmp : ℚ)
  | NotEqualNumber (cmp : ℚ)
  | EqualString (cmp : Str)
  | NotEqualString (cmp : Str)
  | Changed

/-- `parse_number` (src/actions/wait_tag.rs lines 20-28): lowercase the
string; the literals `"true"` and `"false"` parse as 1.0 and 0.0, any
other string is given to the float parser. -/
def parse_number (parseF64 : Str → Option ℚ) (numStr : Str) : Option ℚ :=
  let lower := strLower numStr
  if lower = str "true" then some 1
  else if lower = str "false" then some 0
  else parseF64 numStr

/-- `TagCondition::check` (src/actions/wait_tag.rs lines 31-44).  The
numeric conditions use `map_or(false, …)`: a string no branch of
`parse_number` accepts makes the check `false`.  `Changed` is `false`
without a previous value and compares strings otherwise. -/
def TagCondition.check (parseF64 : Str → Option ℚ) (cond : TagCondition)
    (newTag : Str) (oldTag : Option Str) : Bool :=
  match cond with
  | .Less cmp => ((parse_number parseF64 newTag).map (fun v => decide (v < cmp))).getD false
  | .LessEqual cmp => ((parse_number parseF64 newTag).map (fun v => decide (v ≤ cmp))).getD false
  | .Greater cmp => ((parse_number parseF64 newTag).map (fun v => decide (v > cmp))).getD false
  | .GreaterEqual cmp => ((parse_number parseF64 newTag).map (fun v => decide (v ≥ cmp))).getD false
  | .EqualNumber cmp => ((parse_number parseF64 newTag).map (fun v => decide (v = cmp))).getD false
  | .NotEqualNumber cmp => ((parse_number parseF64 newTag).map (fun v => decide (¬ v = cmp))).getD false
  | .EqualString cmp => decide (newTag = cmp)
  | .NotEqualString cmp => decide (¬ newTag = cmp)
  | .Changed => (oldTag.map (fun v => decide (¬ newTag = v))).getD false

/-- Claim C9: for the numeric `WaitTag` conditions, a tag value that is
case-insensitively `"true"`/`"false"` is compared as 1/0, a value the
float parser accepts is compared numerically, and a value that parses
as neither makes the check return `false` (the action keeps waiting);
`Changed` is `false` with no previously observed value and is `true`
exactly when the new value differs from the previous one. -/
theorem c9_wait_tag_conditions (parseF64 : Str → Option ℚ) (s : Str)
    (old : Option Str) (cmp : ℚ) :
    (strLower s = str "true" → parse_number parseF64 s = some 1) ∧
    (strLower s = str "false" → parse_number parseF64 s = some 0) ∧
    (∀ v, parse_number parseF64 s = some v →
      TagCondition.check parseF64 (.Less cmp) s old = decide (v < cmp) ∧
      TagCondition.check parseF64 (.LessEqual cmp) s old = decide (v ≤ cmp) ∧
      TagCondition.check parseF64 (.Greater cmp) s old = decide (v > cmp) ∧
      TagCondition.check parseF64 (.GreaterEqual cmp) s old = decide (v ≥ cmp) ∧
      TagCondition.check parseF64 (.EqualNumber cmp) s old = decide (v = cmp) ∧
      TagCondition.check parseF64 (.NotEqualNumber cmp) s old = decide (¬ v = cmp)) ∧
    (parse_number parseF64 s = none →
      TagCondition.check parseF64 (.Less cmp) s old = false ∧
      TagCondition.check parseF64 (.LessEqual cmp) s old = false ∧
      TagCondition.check parseF64 (.Greater cmp) s old = false ∧
      TagCondition.check parseF64 (.GreaterEqual cmp) s old = false ∧
      TagCondition.check parseF64 (.EqualNumber cmp) s old = false ∧
      TagCondition.check parseF64 (.NotEqualNumber cmp) s old = false) ∧
    (TagCondition.check parseF64 .Changed s none = false) ∧
    (∀ p, TagCondition.check parseF64 .Changed s (some p) = decide (¬ s = p)) := by
  refine ⟨?_, ?_, ?_, ?_, rfl, fun p => rfl⟩
  · intro h
    simp [parse_number, h]
  · intro h
    simp [parse_number, h, show ¬ str "false" = str "true" from by decide]
  · intro v hv
    simp [TagCondition.check, hv]
  · intro hv
    simp [TagCondition.check, hv]

/-- A concrete stand-in for the std float parser, used only to witness
`c9_wait_tag_conditions`. -/
def sampleParseF64 (s : Str) : Option ℚ :=
  if s = str "5" then some 5 else none

/-- Witness for C9: the literal `"TRue"` compares as 1, the string
`"5"` compares as the number 5, the unparsable string `"abc"` fails the
comparison, and `Changed` behaves as claimed, all at concrete inputs. -/
theorem c9_wait_tag_conditions_witness :
    parse_number sampleParseF64 (str "TRue") = some 1 ∧
    TagCondition.check sampleParseF64 (.Less 7) (str "5") none = decide ((5 : ℚ) < 7) ∧
    TagCondition.check sampleParseF64 (.Greater 7) (str "abc") none = false ∧
    TagCondition.check sampleParseF64 .Changed (str "5") none = false ∧
    TagCondition.check sampleParseF64 .Changed (str "5") (some (str "4")) =
      decide (¬ str "5" = str "4") := by
  refine ⟨?_, ?_, ?_, ?_, ?_⟩
  · exact (c9_wait_tag_conditions sampleParseF64 (str "TRue") none 0).1 (by decide)
  · exact ((c9_wait_tag_conditions sampleParseF64 (str "5") none 7).2.2.1 5 (by decide)).1
  · exact ((c9_wait_tag_conditions sampleParseF64 (str "abc") none 7).2.2.2.1 (by decide)).2.2.1
  · exact (c9_wait_tag_conditions sampleParseF64 (str "5") none 7).2.2.2.2.1
  · exact (c9_wait_tag_conditions sampleParseF64 (str "5") none 7).2.2.2.2.2 (str "4")

end Mtp

namespace Mtp

/-! ## Alarm filter evaluation and dispatch (src/alarm_filter.rs,
src/app_config.rs) -/

/-- `AlarmData` (src/open_pipe/alarm_data.rs lines 5-17); the
`modification_time` field is never read by the filter engine and is
omitted. -/
structure AlarmData where
  name : Str
  id : Int
  alarm_class_name : Str
  alarm_class_symbol : Str
  event_text : Str
  instance_id : Int
  priority : Int
  state : Int
  state_text : Str
  state_machine : Int
  deriving Repr, DecidableEq

/-- `StringCriterion` (src/alarm_filter.rs lines 124-127). -/
inductive StringCriterion where
  | AlarmClassName
  | AlarmName
  deriving Repr, DecidableEq

/-- `StringCriterion::evaluate` (src/alarm_filter.rs lines 130-135). -/
def StringCriterion.evaluate (c : StringCriterion) (alarm : AlarmData) : Str :=
  match c with
  | .AlarmClassName => alarm.alarm_class_name
  | .AlarmName => alarm.name

/-- `IntCriterion` (src/alarm_filter.rs lines 146-151). -/
inductive IntCriterion where
  | Id
  | InstanceId
  | Priority
  | AlarmState
  deriving Repr, DecidableEq

/-- `IntCriterion::evaluate` (src/alarm_filter.rs lines 154-161). -/
def IntCriterion.evaluate (c : IntCriterion) (alarm : AlarmData) : Int :=
  match c with
  | .Id => alarm.id
  | .InstanceId => alarm.instance_id
  | .Priority => alarm.priority
  | .AlarmState => alarm.state

/-- `BoolOp` (src/alarm_filter.rs lines 174-183), the parsed alarm
filter predicate. -/
inductive BoolOp where
  | Not (arg : BoolOp)
  | And (arg1 arg2 : BoolOp)
  | Or (arg1 arg2 : BoolOp)
  | StringEqual (criterion : StringCriterion) (value : Str)
  | StateEqual (criterion : IntCriterion) (state : AlarmState)
  | IntEqual (criterion : IntCriterion) (value : Int)
  | IntLess (criterion : IntCriterion) (value : Int)
  | IntLessEqual (criterion : IntCriterion) (value : Int)
  deriving Repr, DecidableEq

/-- `BoolOp::evaluate` (src/alarm_filter.rs lines 188-199).  A
`StateEqual` compares against the state's `repr(u32)` discriminant
(`*state as i32`). -/
def BoolOp.evaluate : BoolOp → AlarmData → Bool
  | .Not arg, alarm => ! arg.evaluate alarm
  | .And arg1 arg2, alarm => arg1.evaluate alarm && arg2.evaluate alarm
  | .Or arg1 arg2, alarm => arg1.evaluate alarm || arg2.evaluate alarm
  | .StringEqual criterion value, alarm => decide (criterion.evaluate alarm = value)
  | .StateEqual criterion state, alarm =>
    decide (criterion.evaluate alarm = (state.toU32 : Int))
  | .IntEqual criterion value, alarm => decide (criterion.evaluate alarm = value)
  | .IntLess criterion value, alarm => decide (criterion.evaluate alarm < value)
  | .IntLessEqual criterion value, alarm => decide (criterion.evaluate alarm ≤ value)

/-- Modelled from the spec: `AlarmId` is referenced from
src/open_pipe/alarm_data.rs but its definition is not among the
sources; per the spec's data model, alarm records are "comparable by
`id` for identity", so an `AlarmId` is the record's `id`. -/
def AlarmId.from (alarm : AlarmData) : Int := alarm.id

/-- `AlarmFilterState` (src/app_config.rs lines 555-564).  The
`HashSet<AlarmId>` fields are `Finset Int`; the optional tag mirrors
(`tag_setter`, `tag_matching`, `tag_ignored`) and the watch channel
only export the count computed here and are omitted. -/
structure AlarmFilterState where
  filter : BoolOp
  matching : Finset Int
  ignore : Finset Int
  ignore_permanent : Bool
  deriving DecidableEq

/-- `AlarmFilterState::matching_count` (src/app_config.rs lines
586-588): the size of `matching \ ignore`. -/
def matching_count (s : AlarmFilterState) : Nat :=
  (s.matching \ s.ignore).card

/-- `AlarmFilterState::handle_notification` (src/app_config.rs lines
567-584).  Returns the new state and whether `update_alarm_counts`
broadcast the count (`HashSet::insert`/`remove` returned `true`). -/
def handle_notification (s : AlarmFilterState) (new_alarm : AlarmData) :
    AlarmFilterState × Bool :=
  if new_alarm.state = 128 then (s, false)
  else if s.filter.evaluate new_alarm then
    if AlarmId.from new_alarm ∈ s.matching then (s, false)
    else ({ s with matching := insert (AlarmId.from new_alarm) s.matching }, true)
  else
    let s1 := if s.ignore_permanent = false then
        { s with ignore := s.ignore.erase (AlarmId.from new_alarm) }
      else s
    if AlarmId.from new_alarm ∈ s1.matching then
      ({ s1 with matching := s1.matching.erase (AlarmId.from new_alarm) }, true)
    else (s1, false)

/-- The filter state built by `setup_alarms` (src/app_config.rs lines
699-708): empty `matching` and `ignore`, `ignore_permanent = false`. -/
def initialFilterState (filter : BoolOp) : AlarmFilterState :=
  ⟨filter, ∅, ∅, false⟩

/-- A sequence of notifications processed in order by
`handle_notification` (as `AlarmContext::handle_notification` does for
each registered filter). -/
def processAlarms : AlarmFilterState → List AlarmData → AlarmFilterState
  | s, [] => s
  | s, a :: rest => processAlarms (handle_notification s a).1 rest

end Mtp

namespace Mtp

/-- The latest notification of alarm id `i` in a notification sequence,
following the claim's words (no special treatment of `state == 128`).
Used only to compare the claim against the code. -/
def claimLatest (notifs : List AlarmData) (i : Int) : Option AlarmData :=
  (notifs.filter (fun a => a.id = i)).getLast?

/-- The alarm ids occurring in a notification sequence, following the
claim's words. -/
def claimIds (notifs : List AlarmData) : Finset Int :=
  (notifs.map (fun a => a.id)).toFinset

/-- The count the claim asserts:
`|{a in latest-per-id : F(a)}| - |ignored|`, following the claim's
words.  Used only to compare the claim against the code. -/
def claimStatedCount (F : BoolOp) (notifs : List AlarmData) (ignored : Finset Int) : Nat :=
  ((claimIds notifs).filter
    (fun i => ((claimLatest notifs i).map (fun a => F.evaluate a)).getD false = true)).card
  - ignored.card

/-- The latest notification of alarm id `i` whose `state` is not the
ignored sentinel 128; `handle_notification` drops `state == 128`
notifications before touching the filter state. -/
def latestLive (notifs : List AlarmData) (i : Int) : Option AlarmData :=
  (notifs.filter (fun a => a.id = i ∧ ¬ a.state = 128)).getLast?

/-- The alarm ids with at least one notification whose state is not the
sentinel 128. -/
def liveIds (notifs : List AlarmData) : Finset Int :=
  ((notifs.filter (fun a => ¬ a.state = 128)).map (fun a => a.id)).toFinset

/-- The number of alarm ids whose latest non-sentinel notification
satisfies the filter predicate. -/
def latestLiveCount (F : BoolOp) (notifs : List AlarmData) : Nat :=
  ((liveIds notifs).filter
    (fun i => ((latestLive notifs i).map (fun a => F.evaluate a)).getD false = true)).card

/-- The effect of one notification on the `matching` set alone. -/
def matchStep (F : BoolOp) (M : Finset Int) (a : AlarmData) : Finset Int :=
  if a.state = 128 then M
  else if F.evaluate a then insert a.id M
  else M.erase a.id

theorem handle_notification_fst (F : BoolOp) (M : Finset Int) (a : AlarmData) :
    (handle_notification ⟨F, M, ∅, false⟩ a).1 = ⟨F, matchStep F M a, ∅, false⟩ := by
  unfold handle_notification matchStep AlarmId.from
  by_cases h1 : a.state = 128
  · simp [h1]
  · simp only [h1, if_false, Finset.erase_empty, if_true, eq_self_iff_true]
    by_cases h2 : F.evaluate a = true
    · simp only [h2, if_true]
      by_cases h3 : a.id ∈ M
      · simp [h3, Finset.insert_eq_self.mpr h3]
      · simp [h3]
    · simp only [Bool.not_eq_true] at h2
      simp only [h2, Bool.false_eq_true, if_false]
      by_cases h3 : a.id ∈ M
      · simp [h3]
      · simp [h3, Finset.erase_eq_self.mpr h3]

theorem processAlarms_closed (F : BoolOp) :
    ∀ (l : List AlarmData) (M : Finset Int),
      processAlarms ⟨F, M, ∅, false⟩ l = ⟨F, l.foldl (matchStep F) M, ∅, false⟩ := by
  intro l
  induction l with
  | nil => intro M; rfl
  | cons a rest ih =>
    intro M
    show processAlarms (handle_notification ⟨F, M, ∅, false⟩ a).1 rest = _
    rw [handle_notification_fst, ih]
    rfl

theorem mem_foldl_matchStep (F : BoolOp) :
    ∀ (l : List AlarmData) (M : Finset Int) (i : Int),
      (i ∈ l.foldl (matchStep F) M) ↔
        (match latestLive l i with
          | some b => F.evaluate b = true
          | none => i ∈ M) := by
  intro l
  induction l with
  | nil => intro M i; simp [latestLive]
  | cons a rest ih =>
    intro M i
    have hfold : (a :: rest).foldl (matchStep F) M = rest.foldl (matchStep F) (matchStep F M a) := rfl
    have hc : ∀ (x : AlarmData) (l : List AlarmData),
        (x :: l).getLast? = l.getLast?.or (some x) := by
      intro x l
      have h2 := @List.getLast?_append _ [x] l
      simpa using h2
    have hlatest : latestLive (a :: rest) i =
        (latestLive rest i).or (if a.id = i ∧ ¬ a.state = 128 then some a else none) := by
      unfold latestLive
      by_cases hp : a.id = i ∧ ¬ a.state = 128
      · rw [List.filter_cons_of_pos (by simp only [decide_eq_true_eq]; exact hp), if_pos hp,
          hc]
      · rw [List.filter_cons_of_neg (by simp only [decide_eq_true_eq]; exact hp), if_neg hp,
          Option.or_none]
    rw [hfold, ih]
    rcases hrest : latestLive rest i with _ | b
    · rw [hlatest, hrest]
      by_cases hp : a.id = i ∧ ¬ a.state = 128
      · rw [if_pos hp]
        unfold matchStep
        rcases hp with ⟨hid, hst⟩
        simp only [hst, if_false, Option.none_or]
        by_cases he : F.evaluate a = true
        · simp [he, hid]
        · simp only [Bool.not_eq_true] at he
          simp [he, hid]
      · rw [if_neg hp]
        unfold matchStep
        simp only [Option.none_or]
        by_cases h1 : a.state = 128
        · simp [h1]
        · have hid : ¬ a.id = i := by
            intro h
            exact hp ⟨h, h1⟩
          by_cases he : F.evaluate a = true
          · simp [h1, he, Finset.mem_insert, hid, Ne.symm hid]
          · simp only [Bool.not_eq_true] at he
            simp [h1, he, Finset.mem_erase, Ne.symm hid]
    · rw [hlatest, hrest]
      simp [Option.or]

end Mtp

namespace Mtp

theorem foldl_matchStep_eq (F : BoolOp) (l : List AlarmData) :
    l.foldl (matchStep F) ∅ =
      (liveIds l).filter
        (fun i => ((latestLive l i).map (fun a => F.evaluate a)).getD false = true) := by
  ext i
  rw [mem_foldl_matchStep]
  simp only [Finset.mem_filter]
  constructor
  · intro h
    rcases hl : latestLive l i with _ | b
    · rw [hl] at h
      exact absurd h (Finset.not_mem_empty i)
    · rw [hl] at h
      have hb : b ∈ l.filter (fun a => decide (a.id = i ∧ ¬ a.state = 128)) :=
        List.mem_of_getLast?_eq_some hl
    -- the element witnessing the latest live notification puts i into liveIds
      rcases List.mem_filter.mp hb with ⟨hbl, hbp⟩
      rcases decide_eq_true_eq.mp hbp with ⟨hbi, hbs⟩
      constructor
      · unfold liveIds
        rw [List.mem_toFinset]
        exact List.mem_map.mpr ⟨b, List.mem_filter.mpr ⟨hbl, by simpa using hbs⟩, hbi⟩
      · simp [hl, h]
  · intro h
    rcases h with ⟨-, hpred⟩
    rcases hl : latestLive l i with _ | b
    · rw [hl] at hpred
      simp at hpred
    · rw [hl] at hpred
      simpa using hpred

theorem handle_notification_silent (s : AlarmFilterState) (a : AlarmData)
    (h : (handle_notification s a).2 = false) :
    matching_count (handle_notification s a).1 = matching_count s := by
  unfold handle_notification at h ⊢
  by_cases h1 : a.state = 128
  · simp [h1]
  · simp only [h1, if_false] at h ⊢
    by_cases h2 : BoolOp.evaluate s.filter a = true
    · simp only [h2, if_true] at h ⊢
      by_cases h3 : AlarmId.from a ∈ s.matching
      · simp [h3]
      · simp [h3] at h
    · simp only [Bool.not_eq_true] at h2
      simp only [h2, Bool.false_eq_true, if_false] at h ⊢
      by_cases hperm : s.ignore_permanent = false
      · simp only [hperm, if_true] at h ⊢
        by_cases h3 : AlarmId.from a ∈ s.matching
        · simp [h3] at h
        · simp only [h3, if_false]
          unfold matching_count
          have : s.matching \ s.ignore.erase (AlarmId.from a) = s.matching \ s.ignore := by
            ext x
            simp only [Finset.mem_sdiff, Finset.mem_erase]
            constructor
            · intro ⟨hx, hxe⟩
              refine ⟨hx, fun hxi => hxe ⟨fun hxa => h3 (hxa ▸ hx), hxi⟩⟩
            · intro ⟨hx, hxi⟩
              exact ⟨hx, fun he => hxi he.2⟩
          simp [this]
      · simp only [hperm, if_false] at h ⊢
        by_cases h3 : AlarmId.from a ∈ s.matching
        · simp [h3] at h
        · simp [h3]

/-- Counterexample to claim C5: two notifications for the same alarm id
against the filter `Priority = 5`.  The first (priority 3, state 1)
does not match; the second (priority 5) is the latest notification and
satisfies the predicate, but its state is the sentinel 128, so
`handle_notification` ignores it.  The code reports count 0 while the
claimed formula `|{a in latest-per-id : F(a)}| - |ignored|` gives 1. -/
theorem c5_count_counterexample :
    matching_count (processAlarms
        (initialFilterState (.IntEqual .Priority 5))
        [⟨str "A", 1, str "W", str "W", [], 1, 3, 1, [], 0⟩,
         ⟨str "A", 1, str "W", str "W", [], 1, 5, 128, [], 0⟩]) = 0 ∧
    claimStatedCount (.IntEqual .Priority 5)
        [⟨str "A", 1, str "W", str "W", [], 1, 3, 1, [], 0⟩,
         ⟨str "A", 1, str "W", str "W", [], 1, 5, 128, [], 0⟩]
        (processAlarms (initialFilterState (.IntEqual .Priority 5))
          [⟨str "A", 1, str "W", str "W", [], 1, 3, 1, [], 0⟩,
           ⟨str "A", 1, str "W", str "W", [], 1, 5, 128, [], 0⟩]).ignore = 1 ∧
    (0 : Nat) ≠ 1 := by
  refine ⟨by decide, by decide, by decide⟩

/-- Claim C5 as amended: notifications whose `state` is the sentinel
128 are dropped before they reach the filter, so after processing a
notification sequence from the initial filter state the reported count
is the number of alarm ids whose latest notification **with state ≠
128** satisfies the predicate, minus the number of ignored ids (which
remains zero when only notifications are processed); the count always
equals `|matching \ ignored|`; and any notification that changes the
count fires the broadcast. -/
theorem c5_alarm_filter_count (F : BoolOp) (notifs : List AlarmData) :
    matching_count (processAlarms (initialFilterState F) notifs) =
      latestLiveCount F notifs -
        (processAlarms (initialFilterState F) notifs).ignore.card ∧
    (processAlarms (initialFilterState F) notifs).ignore = ∅ ∧
    (∀ i : Int, i ∈ (processAlarms (initialFilterState F) notifs).matching ↔
      ((latestLive notifs i).map (fun a => F.evaluate a)).getD false = true) ∧
    matching_count (processAlarms (initialFilterState F) notifs) =
      ((processAlarms (initialFilterState F) notifs).matching \
        (processAlarms (initialFilterState F) notifs).ignore).card ∧
    (∀ (s : AlarmFilterState) (a : AlarmData),
      matching_count (handle_notification s a).1 ≠ matching_count s →
      (handle_notification s a).2 = true) := by
  have hrun : processAlarms (initialFilterState F) notifs =
      ⟨F, notifs.foldl (matchStep F) ∅, ∅, false⟩ :=
    processAlarms_closed F notifs ∅
  refine ⟨?_, ?_, ?_, rfl, ?_⟩
  · rw [hrun]
    unfold matching_count latestLiveCount
    simp [foldl_matchStep_eq F notifs]
  · rw [hrun]
  · intro i
    rw [hrun]
    have h := mem_foldl_matchStep F notifs ∅ i
    rcases hl : latestLive notifs i with _ | b
    · rw [hl] at h
      simpa using h
    · rw [hl] at h
      simpa using h
  · intro s a hne
    by_contra hb
    exact hne (handle_notification_silent s a (Bool.not_eq_true _ ▸ hb))

/-- Witness for the amended C5 on the counterexample run: count 0,
which equals the number of ids whose latest non-sentinel notification
matches (none), and the broadcast implication at a concrete silent
step. -/
theorem c5_alarm_filter_count_witness :
    matching_count (processAlarms
        (initialFilterState (.IntEqual .Priority 5))
        [⟨str "A", 1, str "W", str "W", [], 1, 3, 1, [], 0⟩,
         ⟨str "A", 1, str "W", str "W", [], 1, 5, 128, [], 0⟩]) =
      latestLiveCount (.IntEqual .Priority 5)
        [⟨str "A", 1, str "W", str "W", [], 1, 3, 1, [], 0⟩,
         ⟨str "A", 1, str "W", str "W", [], 1, 5, 128, [], 0⟩] -
      (processAlarms (initialFilterState (.IntEqual .Priority 5))
        [⟨str "A", 1, str "W", str "W", [], 1, 3, 1, [], 0⟩,
         ⟨str "A", 1, str "W", str "W", [], 1, 5, 128, [], 0⟩]).ignore.card :=
  (c5_alarm_filter_count (.IntEqual .Priority 5)
    [⟨str "A", 1, str "W", str "W", [], 1, 3, 1, [], 0⟩,
     ⟨str "A", 1, str "W", str "W", [], 1, 5, 128, [], 0⟩]).1

end Mtp

namespace Mtp

/-! ## Event-rate limiter and Repeat action (src/actions/repeat.rs) -/

/-- Modelled from the spec: `EventLimit`.  The module `event_limit` is
declared in src/lib.rs and used by src/actions/repeat.rs and
src/state_machine.rs, but src/event_limit.rs is not among the sources.
The spec (§4.9) describes it as a sliding-window counter, "at most N
events per window of duration W"; `count()` records one event and
returns whether the window allowance is still positive. -/
structure EventLimit where
  max : Nat
  window : Nat
  events : List Nat
  deriving Repr, DecidableEq

/-- Modelled from the spec: `EventLimit::count` at time `now` records
the event, prunes events that have left the window, and reports
whether the allowance is respected. -/
def EventLimit.count (lim : EventLimit) (now : Nat) : Bool × EventLimit :=
  let recent := (now :: lim.events).filter (fun t => now < t + lim.window)
  (decide (recent.length ≤ lim.max), { lim with events := recent })

instance {ε α : Type} [DecidableEq ε] [DecidableEq α] : DecidableEq (Except ε α) := by
  intro a b
  cases a <;> cases b
  case error.error e1 e2 =>
    exact if h : e1 = e2 then .isTrue (by rw [h]) else .isFalse (by intro hh; cases hh; exact h rfl)
  case error.ok => exact .isFalse (by intro hh; cases hh)
  case ok.error => exact .isFalse (by intro hh; cases hh)
  case ok.ok a1 a2 =>
    exact if h : a1 = a2 then .isTrue (by rw [h]) else .isFalse (by intro hh; cases hh; exact h rfl)

/-- One observable event of a run of `RepeatAction::run`: a
rate-limiter `count()` call with its verdict, or a run of the body
action (iteration `i`) with its result. -/
inductive RepEvent where
  | limiter (accepted : Bool)
  | body (i : Nat) (r : Except Str Unit)
  deriving Repr, DecidableEq

/-- Whether an event is a rate-limiter count. -/
def RepEvent.isLimiter : RepEvent → Bool
  | .limiter _ => true
  | _ => false

/-- `RepeatAction::run` with `count = Some(n)` (src/actions/repeat.rs
lines 32-35): `for _ in 0..n { action.run().await?; }`.  The body's
results are given by `body` (result of its `i`-th invocation); the
returned trace lists the events in order. -/
def runRepeatCounted : Nat → Nat → (Nat → Except Str Unit) → List RepEvent × Except Str Unit
  | 0, _, _ => ([], .ok ())
  | n + 1, i, body =>
    match body i with
    | .ok () =>
      let rest := runRepeatCounted n (i + 1) body
      (.body i (.ok ()) :: rest.1, rest.2)
    | .error e => ([.body i (.error e)], .error e)

/-- `RepeatAction::run` with `count = None` (src/actions/repeat.rs
lines 36-42): loop forever; each iteration first calls
`limit.count()` — on rejection fail with the runaway error — then runs
the body, propagating its error.  `fuel` bounds the number of
iterations unrolled (the loop itself is unbounded); `none` as final
result means the run was still looping when the fuel ran out.
`times i` is the clock reading at the `i`-th `count()` call. -/
def runRepeatUnbounded (times : Nat → Nat) (body : Nat → Except Str Unit) :
    Nat → Nat → EventLimit → List RepEvent × EventLimit × Option (Except Str Unit)
  | 0, _, lim => ([], lim, none)
  | fuel + 1, i, lim =>
    if (lim.count (times i)).1 = false then
      ([.limiter false], (lim.count (times i)).2,
        some (.error (str "Repetition too fast in repeat action")))
    else
      match body i with
      | .error e =>
        ([.limiter true, .body i (.error e)], (lim.count (times i)).2, some (.error e))
      | .ok () =>
        let rest := runRepeatUnbounded times body fuel (i + 1) (lim.count (times i)).2
        (.limiter true :: .body i (.ok ()) :: rest.1, rest.2.1, rest.2.2)

/-- The shape of every unbounded-repeat trace starting at iteration
`i`: either the run is still looping (fuel exhausted at an iteration
boundary), or the limiter rejected and nothing else happened, or one
accepted count is followed by a failing body run and nothing else, or
one accepted count is followed by a successful body run and the trace
of the next iteration. -/
inductive RepeatTraceShape (body : Nat → Except Str Unit) : Nat → List RepEvent → Prop where
  | stop (i : Nat) : RepeatTraceShape body i []
  | reject (i : Nat) : RepeatTraceShape body i [.limiter false]
  | bodyErr (i : Nat) (e : Str) : body i = .error e →
      RepeatTraceShape body i [.limiter true, .body i (.error e)]
  | bodyOk (i : Nat) (tr : List RepEvent) : body i = .ok () →
      RepeatTraceShape body (i + 1) tr →
      RepeatTraceShape body i (.limiter true :: .body i (.ok ()) :: tr)

theorem getLast?_cons_or {α : Type} (x : α) (l : List α) :
    (x :: l).getLast? = l.getLast?.or (some x) := by
  have h2 := @List.getLast?_append _ [x] l
  simpa using h2

theorem runRepeatCounted_succ_ok {body : Nat → Except Str Unit} {i : Nat} (n : Nat)
    (hb : body i = .ok ()) :
    runRepeatCounted (n + 1) i body =
      (.body i (.ok ()) :: (runRepeatCounted n (i + 1) body).1,
        (runRepeatCounted n (i + 1) body).2) := by
  rw [runRepeatCounted, hb]

theorem runRepeatCounted_succ_err {body : Nat → Except Str Unit} {i : Nat} {e : Str} (n : Nat)
    (hb : body i = .error e) :
    runRepeatCounted (n + 1) i body = ([.body i (.error e)], .error e) := by
  rw [runRepeatCounted, hb]

theorem runRepeatCounted_no_limiter (body : Nat → Except Str Unit) :
    ∀ (n i : Nat), ∀ e ∈ (runRepeatCounted n i body).1, e.isLimiter = false := by
  intro n
  induction n with
  | zero => intro i e he; cases he
  | succ n ih =>
    intro i e he
    rcases hb : body i with err | u
    · rw [runRepeatCounted_succ_err n hb] at he
      rcases List.mem_cons.mp he with h | h
      · subst h; rfl
      · cases h
    · cases u
      rw [runRepeatCounted_succ_ok n hb] at he
      rcases List.mem_cons.mp he with h | h
      · subst h; rfl
      · exact ih (i + 1) e h

theorem runRepeatCounted_all_ok (body : Nat → Except Str Unit) :
    ∀ (n i : Nat), (∀ j, j < n → body (i + j) = .ok ()) →
      runRepeatCounted n i body =
        ((List.range' i n).map (fun j => .body j (.ok ())), .ok ()) := by
  intro n
  induction n with
  | zero => intro i _; rfl
  | succ n ih =>
    intro i h
    have h0 : body i = .ok () := by simpa using h 0 (Nat.succ_pos n)
    unfold runRepeatCounted
    rw [h0]
    have hrest := ih (i + 1) (fun j hj => by
      have := h (j + 1) (Nat.succ_lt_succ hj)
      simpa [Nat.add_assoc, Nat.add_comm 1 j] using this)
    rw [hrest]
    simp [List.range'_concat, List.range']

theorem runRepeatCounted_err (body : Nat → Except Str Unit) :
    ∀ (k n i : Nat) (e : Str), (∀ j, j < k → body (i + j) = .ok ()) →
      body (i + k) = .error e → k < n →
      runRepeatCounted n i body =
        ((List.range' i k).map (fun j => .body j (.ok ())) ++ [.body (i + k) (.error e)],
          .error e) := by
  intro k
  induction k with
  | zero =>
    intro n i e _ herr hn
    match n, hn with
    | n + 1, _ =>
      unfold runRepeatCounted
      rw [show i + 0 = i from rfl] at herr
      rw [herr]
      simp [List.range']
  | succ k ih =>
    intro n i e h herr hn
    match n, hn with
    | n + 1, hn =>
      have h0 : body i = .ok () := by simpa using h 0 (Nat.succ_pos k)
      unfold runRepeatCounted
      rw [h0]
      have hrest := ih n (i + 1) e (fun j hj => by
          have := h (j + 1) (Nat.succ_lt_succ hj)
          simpa [Nat.add_assoc, Nat.add_comm 1 j] using this)
        (by
          have : i + 1 + k = i + (k + 1) := by omega
          rw [this]
          exact herr)
        (Nat.lt_of_succ_lt_succ hn)
      rw [hrest]
      simp [List.range']
      omega

theorem runRepeatUnbounded_succ_reject {times : Nat → Nat} {body : Nat → Except Str Unit}
    {i : Nat} {lim : EventLimit} (fuel : Nat) (hc : (lim.count (times i)).1 = false) :
    runRepeatUnbounded times body (fuel + 1) i lim =
      ([.limiter false], (lim.count (times i)).2,
        some (.error (str "Repetition too fast in repeat action"))) := by
  rw [runRepeatUnbounded, if_pos hc]

theorem runRepeatUnbounded_succ_err {times : Nat → Nat} {body : Nat → Except Str Unit}
    {i : Nat} {lim : EventLimit} {e : Str} (fuel : Nat)
    (hc : ¬ (lim.count (times i)).1 = false) (hb : body i = .error e) :
    runRepeatUnbounded times body (fuel + 1) i lim =
      ([.limiter true, .body i (.error e)], (lim.count (times i)).2, some (.error e)) := by
  rw [runRepeatUnbounded, if_neg hc, hb]

theorem runRepeatUnbounded_succ_ok {times : Nat → Nat} {body : Nat → Except Str Unit}
    {i : Nat} {lim : EventLimit} (fuel : Nat)
    (hc : ¬ (lim.count (times i)).1 = false) (hb : body i = .ok ()) :
    runRepeatUnbounded times body (fuel + 1) i lim =
      (.limiter true :: .body i (.ok ()) ::
          (runRepeatUnbounded times body fuel (i + 1) (lim.count (times i)).2).1,
        (runRepeatUnbounded times body fuel (i + 1) (lim.count (times i)).2).2.1,
        (runRepeatUnbounded times body fuel (i + 1) (lim.count (times i)).2).2.2) := by
  rw [runRepeatUnbounded, if_neg hc, hb]

theorem runRepeatUnbounded_shape (times : Nat → Nat) (body : Nat → Except Str Unit) :
    ∀ (fuel i : Nat) (lim : EventLimit),
      RepeatTraceShape body i (runRepeatUnbounded times body fuel i lim).1 := by
  intro fuel
  induction fuel with
  | zero => intro i lim; exact .stop i
  | succ fuel ih =>
    intro i lim
    by_cases hc : (lim.count (times i)).1 = false
    · rw [runRepeatUnbounded_succ_reject fuel hc]
      exact .reject i
    · rcases hb : body i with e | ⟨⟩
      · rw [runRepeatUnbounded_succ_err fuel hc hb]
        exact .bodyErr i e hb
      · rw [runRepeatUnbounded_succ_ok fuel hc hb]
        exact .bodyOk i _ hb (ih (i + 1) _)

theorem runRepeatUnbounded_result (times : Nat → Nat) (body : Nat → Except Str Unit) :
    ∀ (fuel i : Nat) (lim : EventLimit) (e : Str),
      (runRepeatUnbounded times body fuel i lim).2.2 = some (.error e) →
      (e = str "Repetition too fast in repeat action" ∧
        (runRepeatUnbounded times body fuel i lim).1.getLast? = some (.limiter false)) ∨
      (∃ k, body k = .error e) := by
  intro fuel
  induction fuel with
  | zero => intro i lim e h; cases h
  | succ fuel ih =>
    intro i lim e h
    by_cases hc : (lim.count (times i)).1 = false
    · rw [runRepeatUnbounded_succ_reject fuel hc] at h ⊢
      left
      exact ⟨(Except.error.inj (Option.some.inj h)).symm, rfl⟩
    · rcases hb : body i with err | ⟨⟩
      · rw [runRepeatUnbounded_succ_err fuel hc hb] at h ⊢
        right
        exact ⟨i, by rw [hb, Except.error.injEq]; exact Except.error.inj (Option.some.inj h)⟩
      · rw [runRepeatUnbounded_succ_ok fuel hc hb] at h ⊢
        rcases ih (i + 1) ((lim.count (times i)).2) e h with ⟨he, hlast⟩ | hk
        · left
          refine ⟨he, ?_⟩
          rw [getLast?_cons_or, getLast?_cons_or, hlast]
          rfl
        · exact Or.inr hk

end Mtp

namespace Mtp

/-- Claim C4: `Repeat` with `count = Some(n)` (`n` positive) runs the
body exactly `n` times in sequence — the trace holds exactly the `n`
body runs when all succeed — never consulting the rate limiter, and a
body error stops the loop immediately and propagates; `Repeat` with
`count = None` records one rate-limiter event before each body run
(the trace shape), and a limiter rejection makes the run fail with the
runaway error with no further body run (the rejecting count is the last
event of the trace). -/
theorem c4_repeat_action :
    (∀ (n : Nat) (body : Nat → Except Str Unit), 0 < n →
      (∀ e ∈ (runRepeatCounted n 0 body).1, e.isLimiter = false) ∧
      ((∀ i, i < n → body i = .ok ()) →
        runRepeatCounted n 0 body =
          ((List.range n).map (fun i => .body i (.ok ())), .ok ())) ∧
      (∀ k e, k < n → (∀ i, i < k → body i = .ok ()) → body k = .error e →
        runRepeatCounted n 0 body =
          ((List.range k).map (fun i => .body i (.ok ())) ++ [.body k (.error e)],
            .error e))) ∧
    (∀ (fuel : Nat) (lim : EventLimit) (times : Nat → Nat)
        (body : Nat → Except Str Unit),
      RepeatTraceShape body 0 (runRepeatUnbounded times body fuel 0 lim).1 ∧
      (∀ e, (runRepeatUnbounded times body fuel 0 lim).2.2 = some (.error e) →
        (e = str "Repetition too fast in repeat action" ∧
          (runRepeatUnbounded times body fuel 0 lim).1.getLast? =
            some (.limiter false)) ∨
        (∃ k, body k = .error e))) := by
  constructor
  · intro n body _
    refine ⟨runRepeatCounted_no_limiter body n 0, ?_, ?_⟩
    · intro h
      have := runRepeatCounted_all_ok body n 0 (fun j hj => by simpa using h j hj)
      rw [this, List.range_eq_range']
    · intro k e hk h herr
      have := runRepeatCounted_err body k n 0 e (fun j hj => by simpa using h j hj)
        (by simpa using herr) hk
      rw [this, List.range_eq_range']
      simp
  · intro fuel lim times body
    exact ⟨runRepeatUnbounded_shape times body fuel 0 lim,
      fun e => runRepeatUnbounded_result times body fuel 0 lim e⟩

/-- Witness for C4: two successful iterations of `Repeat{Some(2)}`
produce exactly the two body events and no limiter event, and with
allowance 0 the unbounded form's first limiter count rejects, ending
the run with the runaway error. -/
theorem c4_repeat_action_witness :
    runRepeatCounted 2 0 (fun _ => .ok ()) =
      ((List.range 2).map (fun i => .body i (.ok ())), .ok ()) ∧
    RepeatTraceShape (fun _ => .ok ()) 0
      ((runRepeatUnbounded (fun _ => 0) (fun _ => .ok ()) 1 0 ⟨0, 10, []⟩).1) ∧
    (runRepeatUnbounded (fun _ => 0) (fun _ => .ok ()) 1 0 ⟨0, 10, []⟩).2.2 =
      some (.error (str "Repetition too fast in repeat action")) := by
  refine ⟨?_, ?_, ?_⟩
  · exact (c4_repeat_action.1 2 (fun _ => .ok ()) (by decide)).2.1 (fun i _ => rfl)
  · exact (c4_repeat_action.2 1 ⟨0, 10, []⟩ (fun _ => 0) (fun _ => .ok ())).1
  · rfl

end Mtp

namespace Mtp

/-! ## State machine (src/state_machine.rs) -/

/-- `StateMachineMut` (src/state_machine.rs lines 12-17): the states
(name and optional action — actions are identified by a number, a run
of an action by the pair of its identity and a fresh instance counter),
the active state index and the restart flag.  The `change_limit` is
passed separately to the step function, and the machine name is not
needed by the modelled operations. -/
structure SMState where
  states : List (Str × Option Nat)
  active_state : Option Nat
  restart : Bool
  deriving Repr, DecidableEq

/-- `StateMachine::goto` (src/state_machine.rs lines 136-145): ignore
an out-of-range index; otherwise set `restart`, set the active state
and fire the change notification (the returned flag). -/
def goto (c : SMState) (state_index : Nat) : SMState × Bool :=
  if c.states.length ≤ state_index then (c, false)
  else ({ c with restart := true, active_state := some state_index }, true)

/-- Outcome of one pass through the locked block at the top of
`StateMachine::run`'s loop (src/state_machine.rs lines 82-110). -/
inductive RunStepResult where
  | idle
  | runaway
  | stopped
  | panicked
  | proceed (c : SMState) (running_state : Option Nat)
      (running_action : Option (Nat × Nat)) (lim : EventLimit) (nextInst : Nat)
  deriving Repr, DecidableEq

/-- The locked block of `StateMachine::run` (src/state_machine.rs lines
82-110): when the active state differs from the last-started one or the
restart flag is set, record one rate-limiter event — rejection is the
runaway error (`runaway`) — then, if an active state exists and has an
action, start a fresh instance of it (replacing, and thereby
cancelling, the previously running one) and clear the restart flag;
without an active state the loop breaks (`stopped`).  `idle` is the
pass that leaves the lock without touching anything and goes on to
await.  Indexing an out-of-range active state panics (`panicked`). -/
def runStep (c : SMState) (running_state : Option Nat)
    (running_action : Option (Nat × Nat)) (lim : EventLimit) (now : Nat)
    (nextInst : Nat) : RunStepResult :=
  if running_state ≠ c.active_state ∨ c.restart then
    if (lim.count now).1 = false then .runaway
    else
      match c.active_state with
      | none => .stopped
      | some i =>
        match c.states.get? i with
        | none => .panicked
        | some st =>
          match st.2 with
          | some actId =>
            .proceed { c with restart := false } (some i)
              (some (actId, nextInst)) (lim.count now).2 (nextInst + 1)
          | none =>
            .proceed { c with restart := false } (some i)
              running_action (lim.count now).2 nextInst
  else .idle

/-- Claim C7: for every valid state index `i`, `goto(i)` sets the
active state to `some i`, sets the restart flag and fires the change
notification — also when `i` is already the active index; in the next
pass of the executor the restart flag forces the branch that consults
the rate limiter exactly once (rejection is the runaway error) and, if
state `i` has an action, starts a fresh instance of it, replacing (and
thereby cancelling) whatever action instance was running. -/
theorem c7_goto_restarts (c : SMState) (i : Nat) (hi : i < c.states.length) :
    (goto c i).1.active_state = some i ∧
    (goto c i).1.restart = true ∧
    (goto c i).2 = true ∧
    (goto c i).1.states = c.states ∧
    (∀ (running_state : Option Nat) (running_action : Option (Nat × Nat))
        (lim : EventLimit) (now : Nat) (nextInst : Nat),
      ((lim.count now).1 = false →
        runStep (goto c i).1 running_state running_action lim now nextInst = .runaway) ∧
      (∀ st actId, c.states.get? i = some st → st.2 = some actId →
        (lim.count now).1 = true →
        runStep (goto c i).1 running_state running_action lim now nextInst =
          .proceed { c with active_state := some i, restart := false } (some i)
            (some (actId, nextInst)) (lim.count now).2 (nextInst + 1))) := by
  have hlt : ¬ c.states.length ≤ i := Nat.not_le.mpr hi
  have hgoto : goto c i = ({ c with restart := true, active_state := some i }, true) := by
    unfold goto
    rw [if_neg hlt]
  refine ⟨by rw [hgoto], by rw [hgoto], by rw [hgoto], by rw [hgoto], ?_⟩
  intro running_state running_action lim now nextInst
  constructor
  · intro hc
    rw [hgoto]
    unfold runStep
    rw [if_pos (Or.inr (by simp)), if_pos hc]
  · intro st actId hst hact hc
    rw [hgoto]
    unfold runStep
    rw [if_pos (Or.inr (by simp)), if_neg (by simp [hc])]
    simp only [hst, hact]

/-- Witness for C7 on a concrete two-state machine whose active state
is already index 1: `goto 1` still restarts state 1's action. -/
theorem c7_goto_restarts_witness :
    (goto ⟨[(str "A", some 0), (str "B", some 1)], some 1, false⟩ 1).1.active_state =
      some 1 ∧
    runStep (goto ⟨[(str "A", some 0), (str "B", some 1)], some 1, false⟩ 1).1
        (some 1) (some (1, 4)) ⟨10, 10, []⟩ 0 5 =
      .proceed ⟨[(str "A", some 0), (str "B", some 1)], some 1, false⟩ (some 1)
        (some (1, 5)) ⟨10, 10, [0]⟩ 6 := by
  have h := c7_goto_restarts ⟨[(str "A", some 0), (str "B", some 1)], some 1, false⟩ 1
    (by decide)
  refine ⟨h.1, ?_⟩
  have h2 := (h.2.2.2.2 (some 1) (some (1, 4)) ⟨10, 10, []⟩ 0 5).2
    (str "B", some 1) 1 rfl rfl (by decide)
  rw [h2]
  rfl

end Mtp

namespace Mtp

/-! ## Priority scheduler: insertion order (claim C3)

`get_token_with_notify` pushes the new token state and stably sorts by
descending priority.  Because `NEXT_ID` is a monotone counter, every
queue the scheduler ever holds satisfies the invariant `tokenBefore`:
descending priority, and ascending id (= insertion order) within a
priority class. -/

/-- The strict queue order maintained by the scheduler: higher priority
first, FIFO (ascending allocation id) within a priority class. -/
def tokenBefore (a b : TokenState) : Prop :=
  b.priority < a.priority ∨ (a.priority = b.priority ∧ a.id < b.id)

theorem tokenLe_trans : ∀ (a b c : TokenState),
    tokenLe a b → tokenLe b c → tokenLe a c := by
  intro a b c hab hbc
  simp only [tokenLe, decide_eq_true_eq] at hab hbc ⊢
  omega

theorem tokenLe_total : ∀ (a b : TokenState), tokenLe a b || tokenLe b a := by
  intro a b
  simp only [tokenLe, Bool.or_eq_true, decide_eq_true_eq]
  omega

theorem tokenBefore_le {a b : TokenState} (h : tokenBefore a b) : tokenLe a b = true := by
  rcases h with h | ⟨h, -⟩ <;> simp [tokenLe] <;> omega

theorem mem_takeWhile_sat {α : Type} (p : α → Bool) :
    ∀ (l : List α) (x : α), x ∈ l.takeWhile p → p x = true := by
  intro l
  induction l with
  | nil => intro x hx; cases hx
  | cons a as ih =>
    intro x hx
    rw [List.takeWhile_cons] at hx
    by_cases hp : p a = true
    · rw [if_pos hp] at hx
      rcases List.mem_cons.mp hx with h | h
      · subst h; exact hp
      · exact ih x h
    · rw [if_neg hp] at hx
      cases hx

theorem sublist_pair_of_mem {α : Type} {a b : α} :
    ∀ {l : List α}, a ∈ l → b ∈ l → a ≠ b → List.Sublist [a, b] l ∨ List.Sublist [b, a] l := by
  intro l
  induction l with
  | nil => intro ha; cases ha
  | cons x t ih =>
    intro ha hb hne
    rcases List.mem_cons.mp ha with hax | hat
    · subst hax
      rcases List.mem_cons.mp hb with hbx | hbt
      · exact absurd hbx.symm hne
      · exact Or.inl (List.Sublist.cons₂ a (List.singleton_sublist.mpr hbt))
    · rcases List.mem_cons.mp hb with hbx | hbt
      · subst hbx
        exact Or.inr (List.Sublist.cons₂ b (List.singleton_sublist.mpr hat))
      · rcases ih hat hbt hne with h | h
        · exact Or.inl (List.Sublist.cons x h)
        · exact Or.inr (List.Sublist.cons x h)

theorem pair_sublist_antisym {α : Type} {a b : α} :
    ∀ {l : List α}, l.Nodup → List.Sublist [a, b] l → List.Sublist [b, a] l → a = b := by
  intro l
  induction l with
  | nil => intro _ h; cases h
  | cons x t ih =>
    intro hnd h1 h2
    have hx : x ∉ t := (List.nodup_cons.mp hnd).1
    have hnt : t.Nodup := (List.nodup_cons.mp hnd).2
    rcases List.sublist_cons_iff.mp h1 with h1t | ⟨r1, he1, hr1⟩
    · rcases List.sublist_cons_iff.mp h2 with h2t | ⟨r2, he2, hr2⟩
      · exact ih hnt h1t h2t
      · injection he2 with hbx hrest
        have hbt : b ∈ t := h1t.subset (by simp)
        rw [hbx] at hbt
        exact absurd hbt hx
    · injection he1 with hax hrest1
      rcases List.sublist_cons_iff.mp h2 with h2t | ⟨r2, he2, hr2⟩
      · have hat : a ∈ t := h2t.subset (by simp)
        rw [hax] at hat
        exact absurd hat hx
      · injection he2 with hbx hrest2
        rw [hax, hbx]

theorem dropWhile_priority_lt (t : TokenState) :
    ∀ (q : List TokenState), q.Pairwise tokenBefore →
      ∀ b ∈ q.dropWhile (fun x => tokenLe x t), b.priority < t.priority := by
  intro q
  induction q with
  | nil => intro _ b hb; cases hb
  | cons x xs ih =>
    intro hp b hb
    rw [List.dropWhile_cons] at hb
    by_cases hx : tokenLe x t = true
    · rw [if_pos hx] at hb
      exact ih (List.pairwise_cons.mp hp).2 b hb
    · rw [if_neg hx] at hb
      have hxp : x.priority < t.priority := by
        simp only [tokenLe, decide_eq_true_eq] at hx
        omega
      rcases List.mem_cons.mp hb with h | h
      · rw [h]
        exact hxp
      · rcases (List.pairwise_cons.mp hp).1 b h with hlt | ⟨heq, -⟩
        · omega
        · omega

end Mtp

namespace Mtp

/-- Stable sorting of the queue with the freshly pushed token is the
ordered insertion of the token after every queued token of equal or
higher priority: the sorted queue is unique once the order is refined
by allocation id within a priority class. -/
theorem schedSortedInsert_characterization (q : List TokenState) (t : TokenState)
    (hq : q.Pairwise tokenBefore)
    (hfresh : ∀ x ∈ q, x.id < t.id)
    (hids : ((q ++ [t]).map (fun s => s.id)).Nodup) :
    schedSortedInsert q t =
      q.takeWhile (fun x => tokenLe x t) ++ t :: q.dropWhile (fun x => tokenLe x t) ∧
    (schedSortedInsert q t).Pairwise tokenBefore := by
  have f1 : q.takeWhile (fun x => tokenLe x t) ++ q.dropWhile (fun x => tokenLe x t) = q :=
    List.takeWhile_append_dropWhile _ q
  have hins : schedSortedInsert q t = List.mergeSort (q ++ [t]) tokenLe := rfl
  have hndv : (q ++ [t]).Nodup := List.Nodup.of_map _ hids
  have hperm0 : List.Perm (List.mergeSort (q ++ [t]) tokenLe) (q ++ [t]) :=
    List.mergeSort_perm _ _
  have hnd1 : (List.mergeSort (q ++ [t]) tokenLe).Nodup := hperm0.nodup_iff.mpr hndv
  have hL1le : (List.mergeSort (q ++ [t]) tokenLe).Pairwise (fun a b => tokenLe a b = true) :=
    List.sorted_mergeSort tokenLe_trans tokenLe_total (q ++ [t])
  have hL1 : (List.mergeSort (q ++ [t]) tokenLe).Pairwise tokenBefore := by
    rw [List.pairwise_iff_forall_sublist]
    intro x y hxy
    have hle : tokenLe x y = true := List.pairwise_iff_forall_sublist.mp hL1le hxy
    by_cases hstrict : y.priority < x.priority
    · exact Or.inl hstrict
    · have heq : x.priority = y.priority := by
        simp only [tokenLe, decide_eq_true_eq] at hle
        omega
      refine Or.inr ⟨heq, ?_⟩
      have hney : x ≠ y := by
        intro h
        subst h
        have := List.Nodup.sublist hxy hnd1
        simp at this
      have hxm : x ∈ q ++ [t] := by
        have h2 : x ∈ List.mergeSort (q ++ [t]) tokenLe := hxy.subset (by simp)
        rwa [List.mem_mergeSort] at h2
      have hym : y ∈ q ++ [t] := by
        have h2 : y ∈ List.mergeSort (q ++ [t]) tokenLe := hxy.subset (by simp)
        rwa [List.mem_mergeSort] at h2
      rcases sublist_pair_of_mem hxm hym hney with hP | hP
      · rcases List.sublist_append_iff.mp hP with ⟨l₁, l₂, heq2, hl₁, hl₂⟩
        rcases List.sublist_cons_iff.mp hl₂ with h2n | ⟨r, her, hrr⟩
        · have h0 : l₂ = [] := List.sublist_nil.mp h2n
          subst h0
          rw [List.append_nil] at heq2
          subst heq2
          rcases List.pairwise_iff_forall_sublist.mp hq hl₁ with h | ⟨-, h⟩
          · omega
          · exact h
        · have hr0 : r = [] := List.sublist_nil.mp hrr
          subst hr0
          subst her
          cases l₁ with
          | nil => simp at heq2
          | cons a1 l₁' =>
            cases l₁' with
            | nil =>
              simp only [List.cons_append, List.nil_append, List.cons.injEq] at heq2
              rcases heq2 with ⟨hxa, hyt, -⟩
              have ha1 : a1 ∈ q := List.singleton_sublist.mp hl₁
              rw [hxa, hyt]
              exact hfresh a1 ha1
            | cons a2 l₂' =>
              simp only [List.cons_append, List.cons.injEq] at heq2
              rcases heq2 with ⟨-, -, habs⟩
              exact absurd habs (by simp)
      · have hyx : tokenLe y x = true := by
          simp only [tokenLe, decide_eq_true_eq]
          omega
        have hsub : List.Sublist [y, x] (List.mergeSort (q ++ [t]) tokenLe) :=
          List.pair_sublist_mergeSort tokenLe_trans tokenLe_total hyx hP
        exact absurd (pair_sublist_antisym hnd1 hxy hsub) hney
  have hABq : (q.takeWhile (fun x => tokenLe x t) ++
      q.dropWhile (fun x => tokenLe x t)).Pairwise tokenBefore := by
    rw [f1]
    exact hq
  rcases List.pairwise_append.mp hABq with ⟨hpA, hpB, hcross⟩
  have hAq : ∀ a ∈ q.takeWhile (fun x => tokenLe x t), a ∈ q := by
    intro a ha
    have h2 : a ∈ q.takeWhile (fun x => tokenLe x t) ++
        q.dropWhile (fun x => tokenLe x t) := List.mem_append_left _ ha
    rwa [f1] at h2
  have hBlt : ∀ b ∈ q.dropWhile (fun x => tokenLe x t), b.priority < t.priority :=
    dropWhile_priority_lt t q hq
  have hL2 : (q.takeWhile (fun x => tokenLe x t) ++
      t :: q.dropWhile (fun x => tokenLe x t)).Pairwise tokenBefore := by
    rw [List.pairwise_append]
    refine ⟨hpA, ?_, ?_⟩
    · rw [List.pairwise_cons]
      exact ⟨fun b hb => Or.inl (hBlt b hb), hpB⟩
    · intro a ha y hy
      rcases List.mem_cons.mp hy with hyt | hyB
      · subst hyt
        have h2 := mem_takeWhile_sat _ q a ha
        simp only [tokenLe, decide_eq_true_eq] at h2
        by_cases h3 : y.priority < a.priority
        · exact Or.inl h3
        · exact Or.inr ⟨by omega, hfresh a (hAq a ha)⟩
      · exact hcross a ha y hyB
  have hpermL2 : List.Perm (List.mergeSort (q ++ [t]) tokenLe)
      (q.takeWhile (fun x => tokenLe x t) ++ t :: q.dropWhile (fun x => tokenLe x t)) := by
    refine hperm0.trans ?_
    have h1 : q ++ [t] = q.takeWhile (fun x => tokenLe x t) ++
        (q.dropWhile (fun x => tokenLe x t) ++ [t]) := by
      rw [← List.append_assoc, f1]
    rw [h1]
    exact List.Perm.append_left _ (List.perm_append_singleton t _)
  have hanti : ∀ (x y : TokenState), x ∈ List.mergeSort (q ++ [t]) tokenLe →
      y ∈ q.takeWhile (fun x => tokenLe x t) ++ t :: q.dropWhile (fun x => tokenLe x t) →
      tokenBefore x y → tokenBefore y x → x = y := by
    intro x y _ _ h1 h2
    rcases h1 with h1 | ⟨e1, i1⟩ <;> rcases h2 with h2 | ⟨e2, i2⟩ <;>
      exact (False.elim (by omega))
  constructor
  · rw [hins]
    exact List.Perm.eq_of_sorted hanti hL1 hL2 hpermL2
  · rw [hins]
    exact hL1

end Mtp

namespace Mtp

/-- Claim C3: starting from a queue sorted by descending priority (FIFO
by allocation id within a priority class, fresh id for the new token),
`get_token_with_notify`'s insertion keeps the queue so sorted; the new
token lands at position 0 exactly when its priority is strictly greater
than every queued token's; a new token whose priority equals the head's
stays behind it (the head keeps position 0 and nobody is notified); and
when the new token does land at position 0 over a non-empty queue, the
previously active token is removed from the queue and its waker is
fired. -/
theorem c3_scheduler_insertion (q : List TokenState) (t : TokenState)
    (hq : q.Pairwise tokenBefore)
    (hfresh : ∀ x ∈ q, x.id < t.id)
    (hids : ((q ++ [t]).map (fun s => s.id)).Nodup) :
    (schedSortedInsert q t).Pairwise tokenBefore ∧
    ((schedSortedInsert q t).head? = some t ↔ ∀ x ∈ q, x.priority < t.priority) ∧
    (∀ q0 rest, q = q0 :: rest → q0.priority = t.priority →
      (schedSortedInsert q t).head? = some q0 ∧
      getTokenWithNotify q t = (schedSortedInsert q t, none)) ∧
    (∀ q0 rest, q = q0 :: rest → (∀ x ∈ q, x.priority < t.priority) →
      schedSortedInsert q t = t :: q0 :: rest ∧
      getTokenWithNotify q t = (t :: rest, some q0)) := by
  have hchar := schedSortedInsert_characterization q t hq hfresh hids
  have htq : t ∉ q := fun h => absurd (hfresh t h) (lt_irrefl _)
  refine ⟨hchar.2, ?_, ?_, ?_⟩
  · constructor
    · intro hh x hx
      by_contra hc
      rcases hx0 : q with _ | ⟨q0, rest⟩
      · rw [hx0] at hx
        cases hx
      · have hx' : x ∈ q0 :: rest := hx0 ▸ hx
        have hq' : (q0 :: rest).Pairwise tokenBefore := hx0 ▸ hq
        have hq0 : tokenLe q0 t = true := by
          rcases List.mem_cons.mp hx' with hxq | hxr
          · subst hxq
            simp only [tokenLe, decide_eq_true_eq]
            omega
          · have := (List.pairwise_cons.mp hq').1 x hxr
            simp only [tokenLe, decide_eq_true_eq]
            rcases this with h | ⟨h, -⟩ <;> omega
        rw [hchar.1, hx0, List.takeWhile_cons, if_pos hq0] at hh
        simp only [List.cons_append, List.head?_cons, Option.some.injEq] at hh
        rw [hx0] at htq
        exact htq (hh ▸ List.mem_cons_self q0 rest)
    · intro hall
      have hch := hchar.1
      rcases hx0 : q with _ | ⟨q0, rest⟩
      · rw [hx0] at hch
        rw [hch]
        rfl
      · have hq0 : ¬ tokenLe q0 t = true := by
          have := hall q0 (hx0 ▸ List.mem_cons_self q0 rest)
          simp only [tokenLe, decide_eq_true_eq]
          omega
        rw [hx0] at hch
        rw [hch, List.takeWhile_cons, if_neg hq0]
        rfl
  · intro q0 rest hq' he
    subst hq'
    have hq0 : tokenLe q0 t = true := by
      simp only [tokenLe, decide_eq_true_eq]
      omega
    have hform : schedSortedInsert (q0 :: rest) t =
        q0 :: (rest.takeWhile (fun x => tokenLe x t) ++
          t :: rest.dropWhile (fun x => tokenLe x t)) := by
      rw [hchar.1, List.takeWhile_cons, if_pos hq0, List.dropWhile_cons, if_pos hq0]
      rfl
    have hid : ¬ q0.id = t.id := by
      have := hfresh q0 (List.mem_cons_self q0 rest)
      omega
    constructor
    · rw [hform]
      rfl
    · rcases List.exists_cons_of_ne_nil
          (show rest.takeWhile (fun x => tokenLe x t) ++
            t :: rest.dropWhile (fun x => tokenLe x t) ≠ [] by simp) with ⟨z, zs, hz⟩
      unfold getTokenWithNotify
      rw [hform, hz]
      simp only [hid, if_false]
  · intro q0 rest hq' hall
    subst hq'
    have hq0 : ¬ tokenLe q0 t = true := by
      have := hall q0 (List.mem_cons_self q0 rest)
      simp only [tokenLe, decide_eq_true_eq]
      omega
    have hform : schedSortedInsert (q0 :: rest) t = t :: q0 :: rest := by
      rw [hchar.1, List.takeWhile_cons, if_neg hq0, List.dropWhile_cons, if_neg hq0]
      rfl
    refine ⟨hform, ?_⟩
    unfold getTokenWithNotify
    rw [hform]
    simp

/-- Witness for C3 at two concrete queues: an equal-priority arrival
stays behind the active token with nobody notified, and a
strictly-higher-priority arrival takes position 0, removes the old
active token from the queue and notifies it. -/
theorem c3_scheduler_insertion_witness :
    ((schedSortedInsert [⟨1, 5⟩, ⟨2, 5⟩] ⟨3, 5⟩).head? = some ⟨1, 5⟩ ∧
      getTokenWithNotify [⟨1, 5⟩, ⟨2, 5⟩] ⟨3, 5⟩ =
        (schedSortedInsert [⟨1, 5⟩, ⟨2, 5⟩] ⟨3, 5⟩, none)) ∧
    (schedSortedInsert [⟨1, 5⟩] ⟨4, 9⟩ = [⟨4, 9⟩, ⟨1, 5⟩] ∧
      getTokenWithNotify [⟨1, 5⟩] ⟨4, 9⟩ = ([⟨4, 9⟩], some ⟨1, 5⟩)) := by
  constructor
  · exact (c3_scheduler_insertion [⟨1, 5⟩, ⟨2, 5⟩] ⟨3, 5⟩
      (by simp [tokenBefore]) (by decide) (by decide)).2.2.1 ⟨1, 5⟩ [⟨2, 5⟩] rfl rfl
  · exact (c3_scheduler_insertion [⟨1, 5⟩] ⟨4, 9⟩
      (by simp [tokenBefore]) (by decide) (by decide)).2.2.2 ⟨1, 5⟩ [] rfl
      (by intro x hx; rcases List.mem_singleton.mp hx with h; rw [h]; decide)

end Mtp
